import Mathlib

set_option maxRecDepth 100000

/-!
Verification of the PayGuard-AI icon generator (`src/scripts/gen-icons.py`):
a procedural shield rasterizer and a minimal PNG encoder (chunk framing with
CRC32, deflate-compressed IDAT).  The rasterizer's real arithmetic is embedded
with exact rationals; bytes are naturals; the external deflate compressor is an
abstract parameter (the code delegates to the zlib library).
-/

namespace GenIcons

/-- Transparent RGBA pixel `(0,0,0,0)` emitted outside the shield. -/
def transparentPx : List ℕ := [0, 0, 0, 0]

/-- Base navy fill `(30, 58, 95)` with alpha 255. -/
def navyPx : List ℕ := [30, 58, 95, 255]

/-- Accent blue border `(30, 136, 229)` with alpha 255. -/
def accentPx : List ℕ := [30, 136, 229, 255]

/-- `shield_top = -0.85` from the source. -/
def shield_top : ℚ := -(17/20)

/-- `shield_bottom = 0.85` from the source. -/
def shield_bottom : ℚ := 17/20

/-- `shield_width_top = 0.75` from the source. -/
def shield_width_top : ℚ := 3/4

/-- Normalized coordinate: `nx = (x - size/2) / (size/2)` (the code sets
`cx = width / 2` and divides by `width / 2`); the same formula gives `ny`. -/
def nxQ (size x : ℕ) : ℚ := ((x : ℚ) - size/2) / (size/2)

/-- `progress = (ny - shield_top) / (shield_bottom - shield_top)` from the source. -/
def progressOf (ny : ℚ) : ℚ := (ny - shield_top) / (shield_bottom - shield_top)

/-- The half-width at a given progress: `shield_width_top` when `progress < 0.6`,
otherwise `shield_width_top * (1 - taper * 0.85)` with
`taper = (progress - 0.6) / 0.4`, as in the source. -/
def maxXOf (p : ℚ) : ℚ :=
  if p < 3/5 then shield_width_top
  else shield_width_top * (1 - (p - 3/5) / (2/5) * (17/20))

/-- `border_ratio = abs(nx) / max_x if max_x > 0 else 0` from the source. -/
def borderRatioOf (nx mx : ℚ) : ℚ := if mx > 0 then |nx| / mx else 0

/-- The per-pixel body of the loop in `create_png_icon`, as a function of the
normalized coordinates: transparent outside `[shield_top, shield_bottom]`,
transparent when `|nx| > max_x`, accent blue on the border band
(`border_ratio > 0.85` or `progress < 0.05` or `progress > 0.95`), navy inside. -/
def pixelCore (nx ny : ℚ) : List ℕ :=
  if ny < shield_top ∨ ny > shield_bottom then transparentPx
  else if |nx| > maxXOf (progressOf ny) then transparentPx
  else if borderRatioOf nx (maxXOf (progressOf ny)) > 17/20 ∨
          progressOf ny < 1/20 ∨ progressOf ny > 19/20 then accentPx
  else navyPx

/-- The RGBA bytes of the pixel at column `x`, row `y` of the `size`-icon. -/
def pixel (size x y : ℕ) : List ℕ := pixelCore (nxQ size x) (nxQ size y)

/-- One raster row: the flat channel bytes of row `y`, built left to right
(the code extends `row` by `[r, g, b, a]` for each `x in range(width)`). -/
def rowBytes (size y : ℕ) : List ℕ :=
  (List.range size).flatMap (fun x => pixel size x y)

/-- The full pixel grid: rows top to bottom (`for y in range(height)`). -/
def rasterize (size : ℕ) : List (List ℕ) :=
  (List.range size).map (fun y => rowBytes size y)

/-! Spec-side restatement of the pixel classification, following the words of
the specification (claim C1): `progress = (ny + 0.85) / 1.7`,
`max_x = 0.75` for `progress < 0.6` else `0.75 * (1 - 0.85 * (progress - 0.6) / 0.4)`,
ratio taken as `0` when `max_x ≤ 0`. -/

/-- Spec-side normalized coordinate `(x - size/2) / (size/2)`. -/
def specNx (size x : ℕ) : ℚ := ((x : ℚ) - size/2) / (size/2)

/-- Spec-side progress `(ny + 0.85) / 1.7`. -/
def specProgress (ny : ℚ) : ℚ := (ny + 17/20) / (17/10)

/-- Spec-side half-width: `0.75` when `progress < 0.6`, else
`0.75 * (1 - 0.85 * (progress - 0.6) / 0.4)`. -/
def specMaxX (p : ℚ) : ℚ :=
  if p < 3/5 then 3/4 else (3/4) * (1 - (17/20) * ((p - 3/5) / (2/5)))

/-- Spec-side border ratio, `0` when `max_x ≤ 0`, else `|nx| / max_x`. -/
def specRatio (nx mx : ℚ) : ℚ := if mx ≤ 0 then 0 else |nx| / mx

/-- Spec-side pixel classification as stated in claim C1. -/
def specPixel (size x y : ℕ) : List ℕ :=
  if specNx size y < -(17/20) ∨ specNx size y > 17/20 then [0, 0, 0, 0]
  else if |specNx size x| > specMaxX (specProgress (specNx size y)) then [0, 0, 0, 0]
  else if specRatio (specNx size x) (specMaxX (specProgress (specNx size y))) > 17/20 ∨
          specProgress (specNx size y) < 1/20 ∨ specProgress (specNx size y) > 19/20
       then [30, 136, 229, 255]
  else [30, 58, 95, 255]

theorem specProgress_eq (ny : ℚ) : specProgress ny = progressOf ny := by
  unfold specProgress progressOf shield_top shield_bottom
  norm_num

theorem specMaxX_eq (p : ℚ) : specMaxX p = maxXOf p := by
  unfold specMaxX maxXOf shield_width_top
  split_ifs with h
  · rfl
  · ring

theorem specRatio_eq (nx mx : ℚ) : specRatio nx mx = borderRatioOf nx mx := by
  unfold specRatio borderRatioOf
  rcases le_or_lt mx 0 with h | h
  · rw [if_pos h, if_neg (not_lt.mpr h)]
  · rw [if_neg (not_le.mpr h), if_pos h]

/-- Every pixel is transparent, navy, or accent blue. -/
theorem pixelCore_cases (nx ny : ℚ) :
    pixelCore nx ny = transparentPx ∨ pixelCore nx ny = navyPx ∨
      pixelCore nx ny = accentPx := by
  unfold pixelCore
  split_ifs <;> tauto

theorem pixel_length (size x y : ℕ) : (pixel size x y).length = 4 := by
  unfold pixel
  rcases pixelCore_cases (nxQ size x) (nxQ size y) with h | h | h <;> rw [h] <;> rfl

theorem pixel_channels_le (size x y : ℕ) : ∀ c ∈ pixel size x y, c ≤ 255 := by
  intro c hc
  unfold pixel at hc
  rcases pixelCore_cases (nxQ size x) (nxQ size y) with h | h | h <;> rw [h] at hc <;>
    · simp [transparentPx, navyPx, accentPx] at hc
      omega

theorem flatMap_pixel_length (size y : ℕ) (l : List ℕ) :
    (l.flatMap (fun x => pixel size x y)).length = 4 * l.length := by
  induction l with
  | nil => rfl
  | cons a t ih =>
    simp only [List.flatMap_cons, List.length_append, List.length_cons, ih, pixel_length]
    ring

theorem rowBytes_length (size y : ℕ) : (rowBytes size y).length = size * 4 := by
  unfold rowBytes
  rw [flatMap_pixel_length]
  simp [Nat.mul_comm]

/-- The 4-byte slice of row `y` at column `x` of the raster grid is the pixel
produced by the per-pixel loop body: ties the flat row encoding back to
`pixel`. -/
theorem flatMap_pixel_slice (size y : ℕ) :
    ∀ (l : List ℕ) (i : ℕ), i < l.length →
      ((l.flatMap (fun x => pixel size x y)).drop (4 * i)).take 4 =
        pixel size (l.getD i 0) y := by
  intro l
  induction l with
  | nil => intro i hi; simp at hi
  | cons a t ih =>
    intro i hi
    cases i with
    | zero =>
      rw [List.flatMap_cons]
      simp only [Nat.mul_zero, List.drop_zero, List.getD_cons_zero]
      rw [← pixel_length size a y]
      exact List.take_left _ _
    | succ j =>
      rw [List.flatMap_cons]
      have h4 : 4 * (j + 1) = (pixel size a y).length + 4 * j := by
        rw [pixel_length]; ring
      rw [h4, List.drop_append, List.getD_cons_succ]
      exact ih j (Nat.lt_of_succ_lt_succ hi)

/-- Row `y` of `rasterize size`, sliced at column `x`, is `pixel size x y`. -/
theorem rasterize_pixel_slice (size x y : ℕ) (hx : x < size) (hy : y < size) :
    ((((rasterize size).getD y []).drop (4 * x)).take 4) = pixel size x y := by
  have hrow : (rasterize size).getD y [] = rowBytes size y := by
    unfold rasterize
    rw [List.getD_eq_getElem?_getD, List.getElem?_map, List.getElem?_range hy]
    rfl
  rw [hrow]
  unfold rowBytes
  have := flatMap_pixel_slice size y (List.range size) x (by simpa using hx)
  rwa [List.getD_eq_getElem?_getD, List.getElem?_range hx] at this

/-- C1: for every `size > 0` and pixel `(x, y)` of `rasterize size`, the pixel
value is exactly the classification stated in the specification: transparent
outside `ny ∈ [-0.85, 0.85]`, transparent when `|nx|` exceeds the half-width
`max_x` derived from `progress = (ny + 0.85)/1.7`, accent blue `(30,136,229,255)`
on the border band (`|nx|/max_x > 0.85` with ratio `0` when `max_x ≤ 0`, or
`progress < 0.05`, or `progress > 0.95`), navy `(30,58,95,255)` otherwise. -/
theorem C1_pixel_classification (size x y : ℕ) (h : 0 < size) :
    pixel size x y = specPixel size x y := by
  simp only [pixel, pixelCore, specPixel, specNx, nxQ, specProgress_eq, specMaxX_eq,
    specRatio_eq, shield_top, shield_bottom, transparentPx, navyPx, accentPx]

/-- Witness for C1 at `size = 72`, `(x, y) = (63, 36)`. -/
theorem C1_pixel_classification_witness :
    0 < 72 ∧ pixel 72 63 36 = specPixel 72 63 36 :=
  ⟨by decide, C1_pixel_classification 72 63 36 (by decide)⟩

/-- C3 counterexample: at `size = 72`, `y = 36`, the pixel at column `63` is
accent blue while its claimed mirror at column `72 - 1 - 63 = 8` is
transparent, so `rasterize(size)[x][y] = rasterize(size)[size-1-x][y]` fails. -/
theorem C3_counterexample : ¬ (pixel 72 63 36 = pixel 72 (72 - 1 - 63) 36) := by
  with_unfolding_all decide

/-- C3 (amended): the true mirror symmetry is about column `size - x`, not
`size - 1 - x`: for every `x ≤ size` and every `y`,
`pixel size (size - x) y = pixel size x y`. -/
theorem C3_mirror_amended (size x y : ℕ) (hx : x ≤ size) :
    pixel size (size - x) y = pixel size x y := by
  unfold pixel
  have hneg : nxQ size (size - x) = -(nxQ size x) := by
    unfold nxQ
    rw [Nat.cast_sub hx, ← neg_div]
    ring_nf
  rw [hneg]
  unfold pixelCore borderRatioOf
  rw [abs_neg]

/-- Witness for the amended C3 at `size = 72`, `x = 63`, `y = 36`. -/
theorem C3_mirror_amended_witness :
    63 ≤ 72 ∧ pixel 72 (72 - 63) 36 = pixel 72 63 36 :=
  ⟨by decide, C3_mirror_amended 72 63 36 (by decide)⟩

/-- C9: for every pixel inside the vertical band of the shield (the only ones
that reach the border-ratio computation), the half-width satisfies
`max_x ≥ 0.1125 > 0`, so the `max_x ≤ 0` fallback branch of `border_ratio` is
unreachable and `border_ratio = |nx| / max_x` always. -/
theorem C9_maxX_positive (size y : ℕ)
    (h : ¬ (nxQ size y < shield_top ∨ nxQ size y > shield_bottom)) :
    (1125/10000 : ℚ) ≤ maxXOf (progressOf (nxQ size y)) ∧
    0 < maxXOf (progressOf (nxQ size y)) ∧
    ∀ nx : ℚ, borderRatioOf nx (maxXOf (progressOf (nxQ size y))) =
      |nx| / maxXOf (progressOf (nxQ size y)) := by
  push_neg at h
  obtain ⟨h1, h2⟩ := h
  set ny := nxQ size y with hny
  have hp : progressOf ny ≤ 1 := by
    unfold progressOf shield_top shield_bottom
    rw [div_le_one (by norm_num)]
    unfold shield_bottom at h2
    linarith
  have hmax : (1125/10000 : ℚ) ≤ maxXOf (progressOf ny) := by
    unfold maxXOf shield_width_top
    split_ifs with hc
    · norm_num
    · have ht : (progressOf ny - 3/5) / (2/5) ≤ 1 := by
        rw [div_le_one (by norm_num)]
        linarith
      nlinarith
  have hpos : 0 < maxXOf (progressOf ny) := lt_of_lt_of_le (by norm_num) hmax
  refine ⟨hmax, hpos, fun nx => ?_⟩
  unfold borderRatioOf
  rw [if_pos hpos]

/-- Witness for C9 at `size = 4`, `y = 2` (`ny = 0`). -/
theorem C9_maxX_positive_witness :
    ¬ (nxQ 4 2 < shield_top ∨ nxQ 4 2 > shield_bottom) ∧
    ((1125/10000 : ℚ) ≤ maxXOf (progressOf (nxQ 4 2)) ∧
     0 < maxXOf (progressOf (nxQ 4 2)) ∧
     ∀ nx : ℚ, borderRatioOf nx (maxXOf (progressOf (nxQ 4 2))) =
       |nx| / maxXOf (progressOf (nxQ 4 2))) :=
  ⟨by with_unfolding_all decide,
   C9_maxX_positive 4 2 (by with_unfolding_all decide)⟩

/-- C10: every pixel of `rasterize size` is exactly one of transparent
`(0,0,0,0)`, opaque navy `(30,58,95,255)`, or opaque accent `(30,136,229,255)`;
in particular the alpha channel (index 3) is exactly `0` or `255`. -/
theorem C10_three_colors (size x y : ℕ) (h : 0 < size) :
    (pixel size x y = transparentPx ∨ pixel size x y = navyPx ∨
       pixel size x y = accentPx) ∧
    ((pixel size x y).getD 3 0 = 0 ∨ (pixel size x y).getD 3 0 = 255) := by
  refine ⟨pixelCore_cases _ _, ?_⟩
  unfold pixel
  rcases pixelCore_cases (nxQ size x) (nxQ size y) with h1 | h1 | h1 <;> rw [h1] <;>
    simp [transparentPx, navyPx, accentPx]

/-- Witness for C10 at `size = 1`, `(x, y) = (0, 0)`. -/
theorem C10_three_colors_witness :
    0 < 1 ∧
    ((pixel 1 0 0 = transparentPx ∨ pixel 1 0 0 = navyPx ∨
        pixel 1 0 0 = accentPx) ∧
     ((pixel 1 0 0).getD 3 0 = 0 ∨ (pixel 1 0 0).getD 3 0 = 255)) :=
  ⟨by decide, C10_three_colors 1 0 0 (by decide)⟩

/-- C8: for every `size > 0`, `rasterize size` has exactly `size` rows, every
row holds exactly `size` pixels (`size * 4` channel bytes), and every channel
byte is at most `255` (channel values are naturals, so they lie in `[0,255]`). -/
theorem C8_image_shape (size : ℕ) (h : 0 < size) :
    (rasterize size).length = size ∧
    (∀ row ∈ rasterize size, row.length = size * 4) ∧
    (∀ row ∈ rasterize size, ∀ c ∈ row, c ≤ 255) := by
  refine ⟨by simp [rasterize], ?_, ?_⟩
  · intro row hrow
    simp only [rasterize, List.mem_map, List.mem_range] at hrow
    obtain ⟨y, hy, rfl⟩ := hrow
    exact rowBytes_length size y
  · intro row hrow c hc
    simp only [rasterize, List.mem_map, List.mem_range] at hrow
    obtain ⟨y, hy, rfl⟩ := hrow
    unfold rowBytes at hc
    rw [List.mem_flatMap] at hc
    obtain ⟨x, hx, hcx⟩ := hc
    exact pixel_channels_le size x y c hcx

/-- Witness for C8 at `size = 2`. -/
theorem C8_image_shape_witness :
    0 < 2 ∧
    ((rasterize 2).length = 2 ∧
     (∀ row ∈ rasterize 2, row.length = 2 * 4) ∧
     (∀ row ∈ rasterize 2, ∀ c ∈ row, c ≤ 255)) :=
  ⟨by decide, C8_image_shape 2 (by decide)⟩

/-! ## PNG encoder

The encoder of `create_png_icon`: big-endian packing, CRC32, chunk framing,
scanline assembly.  The deflate compressor (`zlib.compress(raw, 9)`) is an
external library call and is abstracted as a function parameter. -/

/-- `struct.pack('>I', n)`: the 4-byte big-endian encoding of `n < 2^32`. -/
def be32 (n : ℕ) : List ℕ := [n / 2^24 % 256, n / 2^16 % 256, n / 2^8 % 256, n % 256]

/-- One bit-step of the reflected CRC-32: shift right, conditionally xor the
reversed polynomial `0xEDB88320` (the polynomial used by zlib/gzip). -/
def crcStep (c : ℕ) : ℕ := if c % 2 = 1 then (c / 2) ^^^ 0xEDB88320 else c / 2

/-- Fold one byte into the CRC-32 state: xor it in, then run 8 bit-steps. -/
def crcByte (c b : ℕ) : ℕ := crcStep^[8] (c ^^^ b)

/-- `zlib.crc32(data)`: seed `0xFFFFFFFF`, fold all bytes, final xor. -/
def crc32 (data : List ℕ) : ℕ := (data.foldl crcByte 0xFFFFFFFF) ^^^ 0xFFFFFFFF

/-- ASCII bytes of the chunk tag `IHDR`. -/
def tIHDR : List ℕ := [73, 72, 68, 82]

/-- ASCII bytes of the chunk tag `IDAT`. -/
def tIDAT : List ℕ := [73, 68, 65, 84]

/-- ASCII bytes of the chunk tag `IEND`. -/
def tIEND : List ℕ := [73, 69, 78, 68]

/-- `make_chunk` from the source: length of data, then `chunk_type + data`,
then `crc32(chunk) & 0xFFFFFFFF`, each packed with `'>I'`. -/
def make_chunk (ctype data : List ℕ) : List ℕ :=
  be32 data.length ++ (ctype ++ data) ++ be32 (crc32 (ctype ++ data) % 2^32)

/-- The 8-byte PNG signature `b'\x89PNG\r\n\x1a\n'`. -/
def pngSig : List ℕ := [0x89, 0x50, 0x4E, 0x47, 0x0D, 0x0A, 0x1A, 0x0A]

/-- `struct.pack('>IIBBBBB', width, height, 8, 6, 0, 0, 0)`. -/
def ihdrData (w h : ℕ) : List ℕ := be32 w ++ be32 h ++ [8, 6, 0, 0, 0]

/-- The uncompressed scanline buffer: for each row, the filter byte `0` then
the row's channel bytes (`raw += b'\x00' + row_pixels`). -/
def rawOf (pixels : List (List ℕ)) : List ℕ := pixels.flatMap (fun row => 0 :: row)

/-- The scanline buffer of the `size`-icon. -/
def rawData (size : ℕ) : List ℕ := rawOf (rasterize size)

/-- The PNG byte stream for a given pixel grid, parametrized by the external
deflate compressor: signature, IHDR, IDAT (compressed scanlines), IEND. -/
def encodeBytes (compress : List ℕ → List ℕ) (size : ℕ)
    (pixels : List (List ℕ)) : List ℕ :=
  pngSig ++ make_chunk tIHDR (ihdrData size size) ++
    make_chunk tIDAT (compress (rawOf pixels)) ++ make_chunk tIEND []

/-- `create_png_icon`'s PNG bytes for the `size`-icon. -/
def encode (compress : List ℕ → List ℕ) (size : ℕ) : List ℕ :=
  encodeBytes compress size (rasterize size)

/-! Spec-side restatement of the chunk framing (claim C2): big-endian 4-byte
length, ASCII type tag, data, big-endian 4-byte CRC32 over type ++ data with a
fresh seed per chunk; IHDR data = width, height (big-endian), then bytes
8, 6, 0, 0, 0. -/

/-- Spec-side big-endian 4-byte unsigned encoding. -/
def specBE4 (n : ℕ) : List ℕ :=
  [n / 16777216 % 256, n / 65536 % 256, n / 256 % 256, n % 256]

/-- Spec-side chunk framing: length, type tag, data, CRC32 over type ++ data. -/
def specFrame (ctype data : List ℕ) : List ℕ :=
  specBE4 data.length ++ ctype ++ data ++ specBE4 (crc32 (ctype ++ data))

/-- Spec-side IHDR data: width, height, bit depth 8, color type 6,
compression 0, filter 0, interlace 0. -/
def specIHDR (w h : ℕ) : List ℕ := specBE4 w ++ specBE4 h ++ [8, 6, 0, 0, 0]

theorem specBE4_eq (n : ℕ) : specBE4 n = be32 n := by
  simp only [specBE4, be32]
  norm_num

theorem specIHDR_eq (w h : ℕ) : specIHDR w h = ihdrData w h := by
  simp only [specIHDR, ihdrData, specBE4_eq]

theorem crcStep_lt (c : ℕ) (hc : c < 2^32) : crcStep c < 2^32 := by
  unfold crcStep
  have hdiv : c / 2 < 2^32 := lt_of_le_of_lt (Nat.div_le_self c 2) hc
  split_ifs with h
  · exact Nat.xor_lt_two_pow hdiv (by norm_num)
  · exact hdiv

theorem crcIter_lt (n c : ℕ) (hc : c < 2^32) : crcStep^[n] c < 2^32 := by
  induction n generalizing c with
  | zero => exact hc
  | succ k ih =>
    rw [Function.iterate_succ_apply]
    exact ih (crcStep c) (crcStep_lt c hc)

theorem crcByte_lt (c b : ℕ) (hc : c < 2^32) (hb : b < 2^32) :
    crcByte c b < 2^32 :=
  crcIter_lt 8 (c ^^^ b) (Nat.xor_lt_two_pow hc hb)

theorem crcFold_lt (data : List ℕ) (hd : ∀ b ∈ data, b < 2^32) :
    ∀ c, c < 2^32 → data.foldl crcByte c < 2^32 := by
  induction data with
  | nil => intro c hc; exact hc
  | cons a t ih =>
    intro c hc
    rw [List.foldl_cons]
    exact ih (fun b hb => hd b (by simp [hb])) (crcByte c a)
      (crcByte_lt c a hc (hd a (by simp)))

/-- The CRC-32 of a list of 32-bit values is a 32-bit value, so the source's
`& 0xFFFFFFFF` mask is the identity on it. -/
theorem crc32_lt (data : List ℕ) (hd : ∀ b ∈ data, b < 2^32) :
    crc32 data < 2^32 := by
  unfold crc32
  exact Nat.xor_lt_two_pow (crcFold_lt data hd 0xFFFFFFFF (by norm_num)) (by norm_num)

theorem mem_be32_lt (n : ℕ) : ∀ b ∈ be32 n, b < 2^32 := by
  intro b hb
  simp only [be32, List.mem_cons, List.not_mem_nil, or_false] at hb
  rcases hb with rfl | rfl | rfl | rfl <;> omega

theorem ihdr_bytes_lt (w h : ℕ) : ∀ b ∈ tIHDR ++ ihdrData w h, b < 2^32 := by
  intro b hb
  rw [List.mem_append] at hb
  rcases hb with hb | hb
  · simp only [tIHDR, List.mem_cons, List.not_mem_nil, or_false] at hb
    rcases hb with rfl | rfl | rfl | rfl <;> omega
  · unfold ihdrData at hb
    rw [List.mem_append] at hb
    rcases hb with hb | hb
    · rw [List.mem_append] at hb
      rcases hb with hb | hb
      · exact mem_be32_lt w b hb
      · exact mem_be32_lt h b hb
    · simp only [List.mem_cons, List.not_mem_nil, or_false] at hb
      rcases hb with rfl | rfl | rfl | rfl | rfl <;> omega

/-- The source's `make_chunk` produces exactly the chunk framing the
specification describes, with the CRC mask dropped (the CRC is already a
32-bit value). -/
theorem make_chunk_eq_specFrame (t d : List ℕ) (hd : ∀ b ∈ t ++ d, b < 2^32) :
    make_chunk t d = specFrame t d := by
  unfold make_chunk specFrame
  rw [Nat.mod_eq_of_lt (crc32_lt (t ++ d) hd)]
  simp [specBE4_eq, List.append_assoc]

/-- C2: for every image and every compressor output made of bytes, the encoder
emits exactly the signature `89 50 4E 47 0D 0A 1A 0A` followed by the IHDR,
IDAT and IEND chunks in that order and nothing else, each chunk framed as
big-endian length, ASCII tag, data, and big-endian CRC32 (zlib polynomial,
fresh seed, standard final xor) over tag ++ data; the IHDR data is the 13
bytes width, height (big-endian) and 8, 6, 0, 0, 0; IEND's data is empty. -/
theorem C2_chunk_layout (compress : List ℕ → List ℕ) (size : ℕ)
    (pixels : List (List ℕ)) (h : 0 < size)
    (hB : ∀ b ∈ compress (rawOf pixels), b < 256) :
    encodeBytes compress size pixels =
      pngSig ++ specFrame tIHDR (specIHDR size size) ++
        specFrame tIDAT (compress (rawOf pixels)) ++ specFrame tIEND [] ∧
    (specIHDR size size).length = 13 := by
  constructor
  · unfold encodeBytes
    have hidat : ∀ b ∈ tIDAT ++ compress (rawOf pixels), b < 2^32 := by
      intro b hb
      rw [List.mem_append] at hb
      rcases hb with hb | hb
      · simp only [tIDAT, List.mem_cons, List.not_mem_nil, or_false] at hb
        rcases hb with rfl | rfl | rfl | rfl <;> omega
      · exact lt_trans (hB b hb) (by norm_num)
    rw [make_chunk_eq_specFrame tIHDR (ihdrData size size) (ihdr_bytes_lt size size),
      make_chunk_eq_specFrame tIDAT (compress (rawOf pixels)) hidat,
      make_chunk_eq_specFrame tIEND [] (by decide), specIHDR_eq]
  · simp [specIHDR, specBE4]

/-- Witness for C2: identity compressor, `size = 1`, one transparent pixel. -/
theorem C2_chunk_layout_witness :
    (0 < 1 ∧ ∀ b ∈ (fun bs : List ℕ => bs) (rawOf [[0, 0, 0, 0]]), b < 256) ∧
    (encodeBytes (fun bs => bs) 1 [[0, 0, 0, 0]] =
       pngSig ++ specFrame tIHDR (specIHDR 1 1) ++
         specFrame tIDAT ((fun bs : List ℕ => bs) (rawOf [[0, 0, 0, 0]])) ++
         specFrame tIEND [] ∧
     (specIHDR 1 1).length = 13) :=
  ⟨⟨by decide, by decide⟩,
   C2_chunk_layout (fun bs => bs) 1 [[0, 0, 0, 0]] (by decide) (by decide)⟩

/-- Length of the scanline buffer: one filter byte plus `w` bytes per row. -/
theorem rawOf_length (w : ℕ) (pixels : List (List ℕ))
    (hrow : ∀ row ∈ pixels, row.length = w) :
    (rawOf pixels).length = pixels.length * (1 + w) := by
  induction pixels with
  | nil => simp [rawOf]
  | cons r t ih =>
    simp only [rawOf, List.flatMap_cons, List.length_append, List.length_cons] at *
    rw [hrow r (by simp), ih (fun row hm => hrow row (by simp [hm]))]
    ring

/-- C5: the uncompressed IDAT payload is, for each row top-to-bottom, the
filter byte `0x00` followed by that row's channel bytes, and its length is
`height * (1 + width * 4)`. -/
theorem C5_scanline_payload (size : ℕ) (pixels : List (List ℕ)) (h : 0 < size)
    (hlen : pixels.length = size)
    (hrow : ∀ row ∈ pixels, row.length = size * 4) :
    rawOf pixels = pixels.flatMap (fun row => 0 :: row) ∧
    (rawOf pixels).length = size * (1 + size * 4) := by
  refine ⟨rfl, ?_⟩
  rw [rawOf_length (size * 4) pixels hrow, hlen]

/-- Witness for C5: `size = 1`, one transparent pixel. -/
theorem C5_scanline_payload_witness :
    (0 < 1 ∧ ([[0, 0, 0, 0]] : List (List ℕ)).length = 1 ∧
      ∀ row ∈ ([[0, 0, 0, 0]] : List (List ℕ)), row.length = 1 * 4) ∧
    (rawOf [[0, 0, 0, 0]] = [[0, 0, 0, 0]].flatMap (fun row => 0 :: row) ∧
     (rawOf [[0, 0, 0, 0]]).length = 1 * (1 + 1 * 4)) :=
  ⟨⟨by decide, by decide, by decide⟩,
   C5_scanline_payload 1 [[0, 0, 0, 0]] (by decide) (by decide) (by decide)⟩

/-- C6: `encode(rasterize(72))` starts with the 29 fixed bytes of the claim,
then the 4 CRC bytes `85 ED B3 47`, then the IDAT chunk, and ends with the
fixed 12-byte IEND chunk `00 00 00 00 49 45 4E 44 AE 42 60 82`, for any
compressor. -/
theorem C6_concrete_bytes (compress : List ℕ → List ℕ) :
    encode compress 72 =
      [0x89, 0x50, 0x4E, 0x47, 0x0D, 0x0A, 0x1A, 0x0A,
       0x00, 0x00, 0x00, 0x0D, 0x49, 0x48, 0x44, 0x52,
       0x00, 0x00, 0x00, 0x48, 0x00, 0x00, 0x00, 0x48,
       0x08, 0x06, 0x00, 0x00, 0x00, 0x55, 0xED, 0xB3, 0x47] ++
      make_chunk tIDAT (compress (rawData 72)) ++
      [0x00, 0x00, 0x00, 0x00, 0x49, 0x45, 0x4E, 0x44, 0xAE, 0x42, 0x60, 0x82] := by
  have h1 : pngSig ++ make_chunk tIHDR (ihdrData 72 72) =
      [0x89, 0x50, 0x4E, 0x47, 0x0D, 0x0A, 0x1A, 0x0A,
       0x00, 0x00, 0x00, 0x0D, 0x49, 0x48, 0x44, 0x52,
       0x00, 0x00, 0x00, 0x48, 0x00, 0x00, 0x00, 0x48,
       0x08, 0x06, 0x00, 0x00, 0x00, 0x55, 0xED, 0xB3, 0x47] := by decide
  have h2 : make_chunk tIEND [] =
      [0x00, 0x00, 0x00, 0x00, 0x49, 0x45, 0x4E, 0x44, 0xAE, 0x42, 0x60, 0x82] := by
    decide
  unfold encode encodeBytes
  rw [← h1, ← h2]
  simp only [rawData]

/-- Decoder-side reconstruction.  Modelled from the spec: the repository has no
PNG decoder; the spec's round-trip property says the inflated IDAT data is cut
into `height` scanlines of `1 + width * 4` bytes and the leading filter byte of
each scanline is skipped. -/
def splitRows (w : ℕ) : ℕ → List ℕ → List (List ℕ)
  | 0, _ => []
  | Nat.succ k, bs =>
      ((bs.take (1 + w * 4)).drop 1) :: splitRows w k (bs.drop (1 + w * 4))

/-- Cutting the scanline buffer back into rows and dropping the filter bytes
recovers the pixel rows. -/
theorem splitRows_rawOf (w : ℕ) (pixels : List (List ℕ))
    (hrow : ∀ row ∈ pixels, row.length = w * 4) :
    splitRows w pixels.length (rawOf pixels) = pixels := by
  induction pixels with
  | nil => rfl
  | cons r t ih =>
    have hr : (0 :: r).length = 1 + w * 4 := by
      simp [hrow r (by simp)]
      omega
    have hbs : rawOf (r :: t) = (0 :: r) ++ rawOf t := by
      simp [rawOf]
    have htake : ((0 :: r) ++ rawOf t).take (1 + w * 4) = 0 :: r := by
      rw [← hr, List.take_left]
    have hdrop : ((0 :: r) ++ rawOf t).drop (1 + w * 4) = rawOf t := by
      rw [← hr, List.drop_left]
    show splitRows w (t.length + 1) (rawOf (r :: t)) = r :: t
    rw [splitRows, hbs, htake, hdrop, List.drop_one, List.tail_cons]
    exact congrArg (r :: ·) (ih (fun row hm => hrow row (by simp [hm])))

/-- C7: under the round-trip contract of the external compressor
(`inflate (compress bs) = bs`), the inflated IDAT data of the encoded icon has
exactly `height * (1 + width * 4)` bytes, and reconstructing the rows from it
(skipping each scanline's filter byte) reproduces `rasterize size`
bit-for-bit. -/
theorem C7_idat_roundtrip (compress inflate : List ℕ → List ℕ)
    (hinv : ∀ bs, inflate (compress bs) = bs) (size : ℕ) (h : 0 < size) :
    (inflate (compress (rawData size))).length = size * (1 + size * 4) ∧
    splitRows size size (inflate (compress (rawData size))) = rasterize size := by
  rw [hinv]
  have hlen : (rasterize size).length = size := by simp [rasterize]
  have hrow : ∀ row ∈ rasterize size, row.length = size * 4 := by
    intro row hm
    simp only [rasterize, List.mem_map, List.mem_range] at hm
    obtain ⟨y, hy, rfl⟩ := hm
    exact rowBytes_length size y
  constructor
  · rw [rawData]
    rw [rawOf_length (size * 4) (rasterize size) hrow, hlen]
  · have hx := splitRows_rawOf size (rasterize size) hrow
    rw [hlen] at hx
    exact hx

/-- Witness for C7: identity compressor and inflater, `size = 1`. -/
theorem C7_idat_roundtrip_witness :
    ((fun bs : List ℕ => bs) ((fun bs : List ℕ => bs) (rawData 1))).length =
        1 * (1 + 1 * 4) ∧
    splitRows 1 1 ((fun bs : List ℕ => bs) ((fun bs : List ℕ => bs) (rawData 1))) =
      rasterize 1 :=
  C7_idat_roundtrip (fun bs => bs) (fun bs => bs) (fun _ => rfl) 1 (by decide)

/-- C4 counterexample: at `size = 0` (a size `≤ 0`) the rasterizer's loops run
zero times and it returns an Image — the empty pixel grid — rather than
failing with any `InvalidDimension` condition. -/
theorem C4_counterexample : rasterize 0 = [] := rfl

/-- C4 (amended): the code performs no size validation: at `size = 0` the
rasterizer returns the empty Image and the encoder still emits a complete
57-byte PNG stream (width = height = 0, empty scanline buffer shown here under
an identity compressor); no `InvalidDimension` condition exists in the code. -/
theorem C4_no_validation :
    rasterize 0 = [] ∧
    encode (fun bs => bs) 0 =
      [137, 80, 78, 71, 13, 10, 26, 10, 0, 0, 0, 13, 73, 72, 68, 82,
       0, 0, 0, 0, 0, 0, 0, 0, 8, 6, 0, 0, 0, 59, 139, 124, 18,
       0, 0, 0, 0, 73, 68, 65, 84, 53, 175, 6, 30,
       0, 0, 0, 0, 73, 69, 78, 68, 174, 66, 96, 130] := by
  constructor
  · rfl
  · decide

end GenIcons
